import Mathlib

/-!
Verification of the scanning-and-validation engine of the dns-Scanner
repository (src/python/dnsscanner_tui.py).  Pure fragments of the program are
embedded as executable Lean functions; stateful concurrent fragments are
embedded as explicit state machines with step relations.  Time durations are
rationals measured in seconds; IPv4 addresses are naturals below 2 to the 32.
-/

set_option maxRecDepth 10000

namespace DnsScanner

/-! ### Character level helpers

These model the Python string operations used by the scanner when reading the
CIDR input file: str.strip, str.startswith, str.split, and the octet and
prefix-length validation done inside ipaddress.IPv4Network.
-/

/-- Whitespace characters stripped by Python str.strip. -/
def isSpaceChar (c : Char) : Bool :=
  c = ' ' ∨ c = '\t' ∨ c = '\n' ∨ c = '\r' ∨ c = '\x0b' ∨ c = '\x0c'

/-- Python str.strip: drop whitespace from both ends. -/
def trimChars (l : List Char) : List Char :=
  ((l.dropWhile isSpaceChar).reverse.dropWhile isSpaceChar).reverse

/-- Python str.split(sep) for a one-character separator. -/
def splitOnChar (sep : Char) : List Char → List (List Char)
  | [] => [[]]
  | c :: rest =>
    let r := splitOnChar sep rest
    if c = sep then [] :: r
    else
      match r with
      | [] => [[c]]
      | h :: t => (c :: h) :: t

def digitVal (c : Char) : Nat := c.toNat - '0'.toNat

def allDigits (l : List Char) : Bool := l.all Char.isDigit

def digitsToNat (l : List Char) : Nat := l.foldl (fun a c => a * 10 + digitVal c) 0

/-! ### IPv4 networks

Models the subset of Python ipaddress.IPv4Network used by the scanner: a
dotted-quad address with an optional numeric prefix length, parsed with
strict=False (host bits are masked away instead of rejected).  The netmask and
hostmask spellings of the prefix are not modelled; every concrete input used
below is in dotted-quad-slash-number form, on which this parser agrees with
the Python library (octets must be 1 to 3 digits, no leading zeros, at most
255; the prefix must be digits valued at most 32).
-/

structure IPv4Net where
  addr : Nat
  plen : Nat
deriving DecidableEq

/-- IPv4Network.num_addresses. -/
def IPv4Net.numAddresses (n : IPv4Net) : Nat := 2 ^ (32 - n.plen)

/-- IPv4Network.hosts, as a list.  Python yields both addresses of a /31 and
the single address of a /32; for shorter prefixes the network and broadcast
addresses are excluded. -/
def IPv4Net.hostsList (n : IPv4Net) : List Nat :=
  if n.plen = 32 then [n.addr]
  else if n.plen = 31 then [n.addr, n.addr + 1]
  else (List.range (2 ^ (32 - n.plen) - 2)).map (fun i => n.addr + 1 + i)

/-- IPv4Network.subnets(new_prefix=24) when plen < 24, else the network
itself, exactly as the stream generator splits ranges (lines 1090 to 1093). -/
def IPv4Net.subBlocks24 (n : IPv4Net) : List IPv4Net :=
  if 24 ≤ n.plen then [n]
  else (List.range (2 ^ (24 - n.plen))).map (fun i => ⟨n.addr + i * 256, 24⟩)

/-- One octet of a dotted quad: nonempty, all digits, at most 3 characters,
no leading zero, value at most 255 (ipaddress._parse_octet). -/
def parseOctet (l : List Char) : Option Nat :=
  if l.isEmpty then none
  else if ¬ allDigits l then none
  else if 3 < l.length then none
  else if 1 < l.length ∧ l.head? = some '0' then none
  else if digitsToNat l ≤ 255 then some (digitsToNat l) else none

/-- A dotted quad address as a 32-bit natural. -/
def parseIPv4Addr (l : List Char) : Option Nat :=
  match splitOnChar '.' l with
  | [a, b, c, d] => do
    let va ← parseOctet a
    let vb ← parseOctet b
    let vc ← parseOctet c
    let vd ← parseOctet d
    pure (va * 2 ^ 24 + vb * 2 ^ 16 + vc * 2 ^ 8 + vd)
  | _ => none

/-- A numeric prefix length: digits valued at most 32. -/
def parsePrefixLen (l : List Char) : Option Nat :=
  if l.isEmpty then none
  else if ¬ allDigits l then none
  else if digitsToNat l ≤ 32 then some (digitsToNat l) else none

/-- Clear the host bits of addr below prefix length p (strict=False). -/
def maskAddr (addr p : Nat) : Nat := addr / 2 ^ (32 - p) * 2 ^ (32 - p)

/-- ipaddress.IPv4Network(line, strict=False) on dotted-quad input; a missing
prefix means /32. -/
def parseIPv4Network (l : List Char) : Option IPv4Net :=
  match splitOnChar '/' l with
  | [a] =>
    match parseIPv4Addr a with
    | some ad => some ⟨ad, 32⟩
    | none => none
  | [a, p] =>
    match parseIPv4Addr a, parsePrefixLen p with
    | some ad, some pl => some ⟨maskAddr ad pl, pl⟩
    | _, _ => none
  | _ => none

/-! ### Reading the CIDR file -/

/-- A line survives filtering when its stripped form is nonempty and does not
start with the comment character (lines 1072 to 1073 and 1016 to 1017). -/
def keepLine (t : List Char) : Bool :=
  (¬ t.isEmpty) ∧ t.head? ≠ some '#'

/-- read_and_process inside _stream_ips_from_file (lines 1066 to 1081): strip
each line, skip blank and comment lines, parse the rest, silently dropping
malformed lines. -/
def parseSubnets (lines : List String) : List IPv4Net :=
  lines.filterMap (fun s =>
    let t := trimChars s.data
    if keepLine t then parseIPv4Network t else none)

/-- _count_file_lines (lines 1010 to 1021): counts stripped nonempty
non-comment lines, with no validity check at all. -/
def countFileLines (lines : List String) : Nat :=
  lines.foldl (fun cnt s => if keepLine (trimChars s.data) then cnt + 1 else cnt) 0

/-- The guard at lines 913 to 916 of _scan_async: the scan is abandoned before
any probe is issued exactly when _count_file_lines returned zero. -/
def scanStopsBeforeProbes (lines : List String) : Bool :=
  countFileLines lines == 0

/-! ### The address stream generator

_stream_ips_from_file (lines 1058 to 1114).  The three shuffle call sites
(subnet list, /24 block list, host list) are parameters; the theorems
quantify over all permutation-producing functions, covering every draw of the
SystemRandom shuffles.  Addresses are kept as 32-bit naturals; Python
stringifies them, which is injective and so irrelevant to the counting and
coverage statements.
-/

def chunkLimit : Nat := 500

structure StreamAcc where
  emitted : List (List Nat)
  chunk : List Nat
deriving DecidableEq

/-- Lines 1103 to 1109: append one host address, emitting the chunk when it
reaches the bound. -/
def pushHost (acc : StreamAcc) (ip : Nat) : StreamAcc :=
  let c := acc.chunk ++ [ip]
  if chunkLimit ≤ c.length then ⟨acc.emitted ++ [c], []⟩ else ⟨acc.emitted, c⟩

/-- Lines 1097 to 1109: a single-address block appends its network address
with no size check; any other block appends its shuffled host list. -/
def pushBlock (sC : List Nat → List Nat) (acc : StreamAcc) (blk : IPv4Net) : StreamAcc :=
  if blk.numAddresses = 1 then ⟨acc.emitted, acc.chunk ++ [blk.addr]⟩
  else (sC blk.hostsList).foldl pushHost acc

/-- Lines 1089 to 1109: split a range into /24 blocks, shuffle them, process
each. -/
def pushNet (sB : List IPv4Net → List IPv4Net) (sC : List Nat → List Nat)
    (acc : StreamAcc) (net : IPv4Net) : StreamAcc :=
  (sB net.subBlocks24).foldl (pushBlock sC) acc

/-- _stream_ips_from_file applied to the parsed subnet list: shuffle the
subnets, process each, and finally emit any nonempty remainder chunk
(lines 1085 to 1114). -/
def streamIpsFromFile (sN : List IPv4Net → List IPv4Net)
    (sB : List IPv4Net → List IPv4Net) (sC : List Nat → List Nat)
    (subnets : List IPv4Net) : List (List Nat) :=
  let acc := (sN subnets).foldl (pushNet sB sC) ⟨[], []⟩
  if acc.chunk.isEmpty then acc.emitted else acc.emitted ++ [acc.chunk]

/-- The addresses the generator is expected to produce for one range: the
hosts of each /24 sub-block (both addresses of a /31 block, the single
address of a /32 block, otherwise all but the block network and broadcast). -/
def usableHosts (n : IPv4Net) : List Nat :=
  n.subBlocks24.flatMap IPv4Net.hostsList

def allUsableHosts (subnets : List IPv4Net) : List Nat :=
  subnets.flatMap usableHosts

/-- Number of single-address blocks in a block list. -/
def blocksSingleCount (blocks : List IPv4Net) : Nat :=
  blocks.countP (fun b => b.numAddresses == 1)

/-- Number of single-address blocks among the /24 splits of the input; these
are exactly the appends that bypass the chunk-size check. -/
def singleBlockCount (subnets : List IPv4Net) : Nat :=
  blocksSingleCount (subnets.flatMap IPv4Net.subBlocks24)

/-! ### DNS probe classification

_test_dns (lines 1193 to 1250).  The outcome of the single aiodns query is
abstracted into: an answer (with its Python truthiness, since the code tests
if result), a DNS error with its numeric code, a timeout, or any other
exception.  elapsed is the wall-clock round trip measured by the code.
-/

inductive QueryOutcome where
  | answer (truthy : Bool) (elapsed : ℚ)
  | dnsError (code : Nat) (elapsed : ℚ)
  | timeoutErr
  | otherExc
deriving DecidableEq

/-- Error codes treated as proof of a working resolver (lines 1229 to 1233). -/
def goodErrorCode (c : Nat) : Bool := c = 1 ∨ c = 3 ∨ c = 4

/-- _test_dns, returning the (ip, is_valid, response_time) tuple, with the
branch structure of lines 1205 to 1250 kept intact. -/
def testDns (ip : Nat) (out : QueryOutcome) : Nat × Bool × ℚ :=
  match out with
  | .answer t e =>
    if t ∧ e < 2 then (ip, true, e)
    else if t then (ip, false, 0)
    else (ip, false, 0)
  | .dnsError c e =>
    if goodErrorCode c ∧ e < 2 then (ip, true, e)
    else if goodErrorCode c then (ip, false, 0)
    else (ip, false, 0)
  | .timeoutErr => (ip, false, 0)
  | .otherExc => (ip, false, 0)

/-- The classification the specification describes: live exactly when a
(truthy) answer or a domain-not-found / no-data / wrong-type error arrives in
strictly under 2 seconds. -/
def liveSpec : QueryOutcome → Bool
  | .answer t e => t ∧ e < 2
  | .dnsError c e => (c = 1 ∨ c = 3 ∨ c = 4) ∧ e < 2
  | .timeoutErr => false
  | .otherExc => false

/-- The round trip the code measured, for outcomes that carry one. -/
def measuredElapsed : QueryOutcome → ℚ
  | .answer _ e => e
  | .dnsError _ e => e
  | .timeoutErr => 0
  | .otherExc => 0

/-! ### Concurrency bounds

The probe semaphore asyncio.Semaphore(self.concurrency) (line 940, entered by
_test_dns at line 1195), the validation semaphore
asyncio.Semaphore(self.slipstream_max_concurrent) (line 895, entered at line
1347), and the port pool deque(range(10800, 10803)) (lines 896 and 1349 to
1371).  Each is modelled as a state machine whose steps are exactly the
acquire and release operations the code performs; any interleaving of
concurrent tasks is some sequence of these steps.
-/

/-- Validation concurrency cap, self.slipstream_max_concurrent (line 621). -/
def slipstreamMaxConcurrent : Nat := 3

/-- Base local port, self.slipstream_base_port (line 622). -/
def slipstreamBasePort : Nat := 10800

structure SemState where
  capacity : Nat
  active : Nat
deriving DecidableEq

/-- asyncio.Semaphore: an async-with entry succeeds only while fewer than
capacity holders are active; exit releases one holder. -/
inductive SemStep : SemState → SemState → Prop
  | acquire (s : SemState) : s.active < s.capacity → SemStep s ⟨s.capacity, s.active + 1⟩
  | release (s : SemState) : 0 < s.active → SemStep s ⟨s.capacity, s.active - 1⟩

def semInit (n : Nat) : SemState := ⟨n, 0⟩

def SemReachable (n : Nat) (s : SemState) : Prop :=
  Relation.ReflTransGen SemStep (semInit n) s

structure PortPoolState where
  available : List Nat
  leased : List Nat
deriving DecidableEq

/-- The port pool: popleft from the available deque (line 1352), append back
in the finally block (line 1371).  Leasing requires a nonempty deque, which
is what the polling loop at lines 1349 to 1350 waits for. -/
inductive PoolStep : PortPoolState → PortPoolState → Prop
  | lease (p : Nat) (rest leased : List Nat) :
      PoolStep ⟨p :: rest, leased⟩ ⟨rest, p :: leased⟩
  | release (avail leased : List Nat) (p : Nat) : p ∈ leased →
      PoolStep ⟨avail, leased⟩ ⟨avail ++ [p], leased.erase p⟩

/-- deque(range(slipstream_base_port, slipstream_base_port + 3)) (line 896). -/
def poolInit : PortPoolState :=
  ⟨(List.range slipstreamMaxConcurrent).map (slipstreamBasePort + ·), []⟩

def PoolReachable (s : PortPoolState) : Prop :=
  Relation.ReflTransGen PoolStep poolInit s

/-! ### Proxy status lifecycle

_process_result (lines 1122 to 1140) sets proxy_results[ip] to Pending for a
live probe result and spawns a validation task; _queue_slipstream_test (lines
1345 to 1371) sets Testing once admitted and Success or Failed when done.
A scan run is a sequence of these events interleaved arbitrarily; the found
events available are bounded by the multiset of live addresses the stream
delivers, so an address occurring twice in the stream (two ranges containing
it) yields two independent found events and two validation tasks.
-/

inductive ProxyStatus where
  | notRequested | pending | testing | success | failed
deriving DecidableEq

/-- Forward progress order of the status machine. -/
def ProxyStatus.rank : ProxyStatus → Nat
  | .notRequested => 0
  | .pending => 1
  | .testing => 2
  | .success => 3
  | .failed => 3

structure ScanState where
  remaining : List Nat
  created : List Nat
  running : List Nat
  statuses : List (Nat × ProxyStatus)
deriving DecidableEq

/-- proxy_results.get(ip): dictionary lookup, absent keys read as
NotRequested (displayed N/A). -/
def statusOf (st : ScanState) (ip : Nat) : ProxyStatus :=
  (st.statuses.lookup ip).getD .notRequested

inductive ScanEv where
  | found (ip : Nat)
  | beginTest (ip : Nat)
  | finish (ip : Nat) (ok : Bool)
deriving DecidableEq

/-- One scheduler event.  found consumes one pending live result from the
stream and runs lines 1137 to 1140; beginTest is line 1355 after semaphore
and port admission; finish is line 1360 recording the outcome. -/
def applyEv (st : ScanState) : ScanEv → Option ScanState
  | .found ip =>
    if ip ∈ st.remaining then
      some ⟨st.remaining.erase ip, ip :: st.created, st.running,
        (ip, .pending) :: st.statuses⟩
    else none
  | .beginTest ip =>
    if ip ∈ st.created then
      some ⟨st.remaining, st.created.erase ip, ip :: st.running,
        (ip, .testing) :: st.statuses⟩
    else none
  | .finish ip ok =>
    if ip ∈ st.running then
      some ⟨st.remaining, st.created, st.running.erase ip,
        (ip, if ok then .success else .failed) :: st.statuses⟩
    else none

def runEvents (st : ScanState) : List ScanEv → Option ScanState
  | [] => some st
  | e :: rest => (applyEv st e).bind (fun st2 => runEvents st2 rest)

/-- The trace of states visited while consuming an event list. -/
def statesAlong (st : ScanState) : List ScanEv → Option (List ScanState)
  | [] => some [st]
  | e :: rest => (applyEv st e).bind (fun st2 => (statesAlong st2 rest).map (st :: ·))

/-- A fresh scan over the live addresses the stream will deliver, in the
state _scan_async resets at lines 883 to 898. -/
def initScan (stream : List Nat) : ScanState := ⟨stream, [], [], []⟩

/-! ### Validation exit paths

_test_slipstream_proxy (lines 1378 to 1465) inside _queue_slipstream_test
(lines 1345 to 1371).  Every exit path of the procedure is enumerated and
mapped to the sequence of resource events it performs; the claims are
properties of those event sequences.
-/

inductive VEvent where
  | acquireSlot | leasePort | spawn | killProc | reapWait | returnPort | releaseSlot
deriving DecidableEq, BEq

/-- How the readiness wait (lines 1401 to 1420) ends. -/
inductive ReadyOutcome where
  | readyTimeout | eofNoMarker | raisedExc | marker
deriving DecidableEq

/-- How the proxy probing (lines 1422 to 1453) ends once ready: the HTTP
attempt returns a status, or it raises and the SOCKS5 attempt returns a
status, or both raise. -/
inductive ProxyOutcome where
  | httpStatus (code : Nat)
  | socksStatus (code : Nat)
  | bothRaise
deriving DecidableEq

/-- Statuses accepted at lines 1435 and 1447. -/
def okStatus (c : Nat) : Bool := c == 200 || c == 301 || c == 302

/-- _test_slipstream_proxy: the resource events it performs and the string it
returns.  If the subprocess launch itself raises, the outer handler returns
Failed and the finally block sees process = None, so nothing is killed.  On
every path after a successful launch the finally block kills the process and
awaits its exit status (lines 1458 to 1465). -/
def testSlipstreamProxy (launchOk : Bool) (ready : ReadyOutcome)
    (proxy : ProxyOutcome) : List VEvent × Bool :=
  if launchOk then
    match ready with
    | .readyTimeout => ([.spawn, .killProc, .reapWait], false)
    | .eofNoMarker => ([.spawn, .killProc, .reapWait], false)
    | .raisedExc => ([.spawn, .killProc, .reapWait], false)
    | .marker =>
      let ok := match proxy with
        | .httpStatus c => okStatus c
        | .socksStatus c => okStatus c
        | .bothRaise => false
      ([.spawn, .killProc, .reapWait], ok)
  else ([], false)

/-- _queue_slipstream_test: semaphore admission, port lease, the proxy test,
then the finally block returns the port and the async-with exit releases the
slot, in that order. -/
def queueSlipstreamTest (launchOk : Bool) (ready : ReadyOutcome)
    (proxy : ProxyOutcome) : List VEvent :=
  [.acquireSlot, .leasePort] ++ (testSlipstreamProxy launchOk ready proxy).1
    ++ [.returnPort, .releaseSlot]

/-- Index of the first occurrence of an event (length when absent). -/
def firstIdx (e : VEvent) : List VEvent → Nat
  | [] => 0
  | x :: r => if x = e then 0 else firstIdx e r + 1

/-- No orphaned subprocess, no leaked port, and the cleanup order the
specification demands: every launch is matched by a kill and a wait, the
leased port is returned, and kill precedes the port return which precedes the
slot release. -/
def noLeakCheck (t : List VEvent) : Bool :=
  t.count .spawn == t.count .killProc
  && t.count .killProc == t.count .reapWait
  && t.count .leasePort == 1 && t.count .returnPort == 1
  && t.count .acquireSlot == 1 && t.count .releaseSlot == 1
  && (!(t.contains .spawn)
      || (t.contains .killProc && decide (firstIdx .killProc t < firstIdx .returnPort t)))
  && decide (firstIdx .returnPort t < firstIdx .releaseSlot t)

/-! ### Saving results

_auto_save_results (lines 1489 to 1537) and action_save_results (lines 1539
to 1596).  server_times is the insertion-ordered dictionary of found servers
and their latencies; proxy_results maps addresses to their status strings.
Python sorted with key x[1] is a stable ascending sort by latency, which
List.insertionSort over the latency order reproduces exactly.
-/

def digitChar (d : Nat) : Char := Char.ofNat (48 + d)

/-- Decimal digits of an octet value (at most 255), without leading zeros. -/
def octetChars (n : Nat) : List Char :=
  if n < 10 then [digitChar n]
  else if n < 100 then [digitChar (n / 10), digitChar (n % 10)]
  else [digitChar (n / 100), digitChar (n / 10 % 10), digitChar (n % 10)]

/-- str(IPv4Address): the dotted-quad rendering the scanner writes out. -/
def ipToString (ip : Nat) : String :=
  String.mk (octetChars (ip / 2 ^ 24 % 256) ++ '.' :: octetChars (ip / 2 ^ 16 % 256)
    ++ '.' :: octetChars (ip / 2 ^ 8 % 256) ++ '.' :: octetChars (ip % 256))

def natCharsAux : Nat → Nat → List Char
  | _, 0 => []
  | 0, _ => []
  | fuel + 1, n => natCharsAux fuel (n / 10) ++ [digitChar (n % 10)]

/-- Decimal rendering of a natural, for the header counters. -/
def natToString (n : Nat) : String :=
  if n = 0 then "0" else String.mk (natCharsAux n n)

/-- Ascending latency, the key function at lines 1524 and 1569. -/
def timeOrder : Nat × ℚ → Nat × ℚ → Prop := fun a b => a.2 ≤ b.2

instance : DecidableRel timeOrder := fun a b => inferInstanceAs (Decidable (a.2 ≤ b.2))

instance : IsTotal (Nat × ℚ) timeOrder := ⟨fun a b => le_total a.2 b.2⟩

instance : IsTrans (Nat × ℚ) timeOrder := ⟨fun _ _ _ h h2 => le_trans h h2⟩

/-- The servers kept when slipstream testing is enabled: those whose proxy
status string is Success (lines 1497 to 1500 and 1546 to 1549). -/
def passedServers (serverTimes : List (Nat × ℚ)) (proxyResults : List (Nat × String)) :
    List (Nat × ℚ) :=
  serverTimes.filter (fun p => proxyResults.lookup p.1 == some "Success")

inductive SaveOutcome where
  | nothingToSave (msg : String)
  | savedFile (lines : List String)
deriving DecidableEq

/-- The separator line written at line 1532. -/
def eqSeparatorLine : String := String.mk ('#' :: List.replicate 50 '=')

/-- _auto_save_results: refuse to write when there is nothing to keep,
otherwise produce the text file lines: comment headers, the separator, a
blank line from the double newline, then one address per line sorted by
ascending latency. -/
def autoSaveResults (testSlipstream : Bool) (ts domain dnsType : String)
    (foundServers : List Nat) (serverTimes : List (Nat × ℚ))
    (proxyResults : List (Nat × String)) : SaveOutcome :=
  if testSlipstream then
    let passed := passedServers serverTimes proxyResults
    if passed.isEmpty then
      .nothingToSave "No DNS servers passed proxy test - nothing to save."
    else
      .savedFile (["# DNS Scanner Results - " ++ ts,
        "# Domain: " ++ domain ++ " | Type: " ++ dnsType,
        "# Slipstream Test: ENABLED (only passed servers)",
        "# Total Saved: " ++ natToString passed.length,
        eqSeparatorLine, ""]
        ++ (passed.insertionSort timeOrder).map (fun p => ipToString p.1))
  else
    if foundServers.isEmpty then
      .nothingToSave "No DNS servers found to save."
    else
      .savedFile (["# DNS Scanner Results - " ++ ts,
        "# Domain: " ++ domain ++ " | Type: " ++ dnsType,
        "# Total Saved: " ++ natToString serverTimes.length,
        eqSeparatorLine, ""]
        ++ (serverTimes.insertionSort timeOrder).map (fun p => ipToString p.1))

structure ManualSave where
  totalFound : Nat
  totalPassedProxy : Nat
  totalSaved : Nat
  jsonServers : List String
  txtLines : List String
deriving DecidableEq

/-- action_save_results: none models the early notify-and-return when there
is nothing to save; otherwise the JSON metadata and the plain text lines,
which are exactly the sorted filtered addresses, one per line with no
headers (lines 1589 to 1593). -/
def actionSaveResults (testSlipstream : Bool) (foundServers : List Nat)
    (serverTimes : List (Nat × ℚ)) (proxyResults : List (Nat × String)) :
    Option ManualSave :=
  if testSlipstream then
    let passed := passedServers serverTimes proxyResults
    if passed.isEmpty then none
    else
      let serversList := (passed.insertionSort timeOrder).map (fun p => ipToString p.1)
      some ⟨foundServers.length,
        (proxyResults.filter (fun q => q.2 == "Success")).length,
        passed.length, serversList, serversList⟩
  else
    if foundServers.isEmpty then none
    else
      let serversList := (serverTimes.insertionSort timeOrder).map (fun p => ipToString p.1)
      some ⟨foundServers.length, 0, serverTimes.length, serversList, serversList⟩

/-! ### The resumable downloader

SlipstreamManager.download (lines 157 to 258).  The partial file on disk is a
byte list; one HTTP response carries a status, the optional total parsed from
the Content-Range header, the Content-Length, and the streamed body.
-/

structure DlResponse where
  status : Nat
  contentRangeTotal : Option Nat
  contentLength : Nat
  body : List Nat
deriving DecidableEq

inductive AttemptResult where
  | completed (finalFile : List Nat) (total : Nat)
      (downloadedStart : Nat) (downloadedEnd : Nat)
  | statusError (code : Nat)
deriving DecidableEq

structure AttemptTrace where
  rangeHeader : Option Nat
  result : AttemptResult
deriving DecidableEq

/-- One download attempt against one response (lines 180 to 236): measure the
existing partial file, send a Range header from its size when positive; on
206 append to it, on 200 reset the downloaded counter to zero and overwrite
it, on anything else raise for status.  rangeHeader = some S models the
header value bytes=S- . -/
def downloadAttempt (tempFile : Option (List Nat)) (resp : DlResponse) : AttemptTrace :=
  let downloaded := (tempFile.getD []).length
  let rangeHeader := if 0 < downloaded then some downloaded else none
  if resp.status = 206 then
    let total := match resp.contentRangeTotal with
      | some t => t
      | none => downloaded + resp.contentLength
    ⟨rangeHeader, .completed ((tempFile.getD []) ++ resp.body) total
      downloaded (downloaded + resp.body.length)⟩
  else if resp.status = 200 then
    ⟨rangeHeader, .completed resp.body resp.contentLength 0 resp.body.length⟩
  else
    ⟨rangeHeader, .statusError resp.status⟩

/-- How one iteration of the retry loop (lines 179 to 256) ends: the attempt
finished and renamed the temp file, a network-class exception was caught
(httpx.TimeoutException, NetworkError, HTTPStatusError, ConnectError,
including the raise_for_status of a 4xx or 5xx response), a 2xx status other
than 200 or 206 fell through raise_for_status to the bare continue with no
backoff, or a non-network exception hit the final handler. -/
inductive AttemptOutcome where
  | finished
  | netFail
  | oddStatus
  | unexpectedFail
deriving DecidableEq

structure DlRun where
  ok : Bool
  tempFile : Option (List Nat)
  backoffSleeps : List ℚ
deriving DecidableEq

/-- The retry loop, from the given attempt number with the given fuel (the
loop runs attempts 1 to max_retries).  A network failure on attempt k with
k < max_retries sleeps retry_delay * k and retries; on the last attempt it
returns False keeping the partial file.  An unexpected failure unlinks the
partial file and returns False at once. -/
def downloadLoop (retryDelay : ℚ) (maxRetries : Nat) (outcomes : Nat → AttemptOutcome) :
    Nat → Nat → Option (List Nat) → List ℚ → DlRun
  | _, 0, tmp, sleeps => ⟨false, tmp, sleeps⟩
  | attempt, fuel + 1, tmp, sleeps =>
    match outcomes attempt with
    | .finished => ⟨true, none, sleeps⟩
    | .oddStatus => downloadLoop retryDelay maxRetries outcomes (attempt + 1) fuel tmp sleeps
    | .netFail =>
      if attempt < maxRetries then
        downloadLoop retryDelay maxRetries outcomes (attempt + 1) fuel tmp
          (sleeps ++ [retryDelay * attempt])
      else ⟨false, tmp, sleeps⟩
    | .unexpectedFail => ⟨false, none, sleeps⟩

/-- SlipstreamManager.download run to completion over the outcomes of its
successive attempts. -/
def download (retryDelay : ℚ) (maxRetries : Nat) (outcomes : Nat → AttemptOutcome)
    (tempFile : Option (List Nat)) : DlRun :=
  downloadLoop retryDelay maxRetries outcomes 1 maxRetries tempFile []

/-- The backoff schedule attempt k sleeps retry_delay * k: the delays for
attempts 1 to n. -/
def backoffs (retryDelay : ℚ) (n : Nat) : List ℚ :=
  (List.range' 1 n).map (fun k => retryDelay * k)

/-! ## Theorems -/

/-! ### C1: probe classification -/

/-- C1: for every probed address, the probe result is classified live if and
only if either a successful (truthy) answer or a DNS error of kind
domain-not-found, no-data-for-type, or type-not-supported (codes 1, 3, 4)
arrives with measured elapsed time strictly under 2 seconds; in the live case
the reported latency is the measured round trip, and in every other case the
result is not live with latency reported as the sentinel 0.  A result whose
Python truthiness is false is treated by the code as no response, hence not a
successful answer. -/
theorem probe_classification (ip : Nat) (out : QueryOutcome) :
    testDns ip out = (ip, liveSpec out, if liveSpec out then measuredElapsed out else 0) := by
  cases out with
  | answer t e =>
    by_cases h1 : t = true <;> by_cases h2 : e < 2 <;>
      simp [testDns, liveSpec, measuredElapsed, h1, h2]
  | dnsError c e =>
    by_cases h1 : c = 1 ∨ c = 3 ∨ c = 4 <;> by_cases h2 : e < 2 <;>
      simp [testDns, liveSpec, measuredElapsed, goodErrorCode, h1, h2]
  | timeoutErr => simp [testDns, liveSpec, measuredElapsed]
  | otherExc => simp [testDns, liveSpec, measuredElapsed]

/-! ### C3: concurrency caps -/

lemma semReachable_inv {n : Nat} {s : SemState} (h : SemReachable n s) :
    s.capacity = n ∧ s.active ≤ n := by
  induction h with
  | refl => exact ⟨rfl, Nat.zero_le n⟩
  | tail _ hstep ih =>
    obtain ⟨h1, h2⟩ := ih
    cases hstep with
    | acquire hlt => exact ⟨h1, by dsimp only; omega⟩
    | release hpos => exact ⟨h1, by dsimp only; omega⟩

lemma poolReachable_inv {s : PortPoolState} (h : PoolReachable s) :
    s.available.length + s.leased.length = slipstreamMaxConcurrent := by
  induction h with
  | refl => rfl
  | tail _ hstep ih =>
    cases hstep with
    | lease p rest leased => simp only [] at ih ⊢; simp at ih ⊢; omega
    | release avail leased p hp =>
      have h1 : (leased.erase p).length = leased.length - 1 :=
        List.length_erase_of_mem hp
      have h2 : 0 < leased.length := List.length_pos_of_mem hp
      simp only [] at ih ⊢
      simp [h1] at ih ⊢
      omega

/-- C3: the probe semaphore admits at most the configured concurrency N, the
validation semaphore admits at most slipstream_max_concurrent = 3 tasks past
admission, and the number of simultaneously leased ports never exceeds the
pool size 3, in every state reachable by any interleaving of acquire and
release steps. -/
theorem concurrency_caps (n : Nat) (probeSem valSem : SemState) (pool : PortPoolState)
    (hp : SemReachable n probeSem) (hv : SemReachable slipstreamMaxConcurrent valSem)
    (hq : PoolReachable pool) :
    probeSem.active ≤ n ∧ valSem.active ≤ slipstreamMaxConcurrent
      ∧ pool.leased.length ≤ slipstreamMaxConcurrent :=
  ⟨(semReachable_inv hp).2, (semReachable_inv hv).2, by have := poolReachable_inv hq; omega⟩

/-- Witness: the caps hold in the freshly initialised states of a scan with
concurrency 100. -/
theorem concurrency_caps_witness :
    (semInit 100).active ≤ 100
    ∧ (semInit slipstreamMaxConcurrent).active ≤ slipstreamMaxConcurrent
    ∧ poolInit.leased.length ≤ slipstreamMaxConcurrent :=
  concurrency_caps 100 (semInit 100) (semInit slipstreamMaxConcurrent) poolInit
    Relation.ReflTransGen.refl Relation.ReflTransGen.refl Relation.ReflTransGen.refl

/-! ### C6: validation cleanup on every exit path -/

/-- C6: on every exit path of a validation attempt (launch failure, readiness
timeout, end of output without the marker, an exception, and every proxy-probe
outcome after readiness) the launched subprocess is killed and its exit status
awaited, the leased port is returned, and the kill precedes the port return
which precedes the release of the validation concurrency slot; no path leaves
an orphaned subprocess or a leaked port. -/
theorem validation_no_leak (launchOk : Bool) (ready : ReadyOutcome) (proxy : ProxyOutcome) :
    noLeakCheck (queueSlipstreamTest launchOk ready proxy) = true := by
  cases launchOk <;> cases ready <;> cases proxy <;> rfl

/-! ### C9: download resume -/

/-- C9: a download attempt that finds a partial file of size S greater than 0
requests the byte range starting at S; a partial-content response appends to
the partial file, preserving its S existing bytes and continuing the
downloaded counter from S; a full-content response resets the downloaded
counter to zero and overwrites the file with the fresh body. -/
theorem download_resume (tmp : Option (List Nat)) (resp : DlResponse)
    (hS : 0 < (tmp.getD []).length) :
    (downloadAttempt tmp resp).rangeHeader = some (tmp.getD []).length
    ∧ (resp.status = 206 →
        (downloadAttempt tmp resp).result =
          .completed ((tmp.getD []) ++ resp.body)
            (match resp.contentRangeTotal with
              | some t => t
              | none => (tmp.getD []).length + resp.contentLength)
            (tmp.getD []).length ((tmp.getD []).length + resp.body.length)
        ∧ ((tmp.getD []) ++ resp.body).take (tmp.getD []).length = tmp.getD [])
    ∧ (resp.status = 200 →
        (downloadAttempt tmp resp).result =
          .completed resp.body resp.contentLength 0 resp.body.length) := by
  refine ⟨?_, ?_, ?_⟩
  · simp only [downloadAttempt]
    split_ifs <;> simp [hS]
  · intro h206
    constructor
    · simp [downloadAttempt, h206]
    · exact List.take_left _ _
  · intro h200
    have : resp.status ≠ 206 := by omega
    simp [downloadAttempt, h200, this]

/-- Witness: resuming from a 2-byte partial file against a 206 response and
against a 200 response. -/
theorem download_resume_witness :
    (downloadAttempt (some [9, 8]) ⟨206, some 5, 0, [3]⟩).rangeHeader = some 2
    ∧ (downloadAttempt (some [9, 8]) ⟨206, some 5, 0, [3]⟩).result =
        .completed [9, 8, 3] 5 2 3
    ∧ (downloadAttempt (some [9, 8]) ⟨200, none, 3, [1, 2, 3]⟩).result =
        .completed [1, 2, 3] 3 0 3 := by
  have h1 := download_resume (some [9, 8]) ⟨206, some 5, 0, [3]⟩ (by decide)
  have h2 := download_resume (some [9, 8]) ⟨200, none, 3, [1, 2, 3]⟩ (by decide)
  exact ⟨h1.1, (h1.2.1 rfl).1, h2.2.2 rfl⟩

/-! ### C10: retry, backoff and partial-file policy -/

lemma downloadLoop_all_netFail (d : ℚ) (maxR : Nat) (outcomes : Nat → AttemptOutcome)
    (tmp : Option (List Nat)) :
    ∀ (fuel attempt : Nat) (sleeps : List ℚ), attempt + fuel = maxR + 1 →
      (∀ k, attempt ≤ k → k ≤ maxR → outcomes k = .netFail) →
      downloadLoop d maxR outcomes attempt fuel tmp sleeps =
        ⟨false, tmp, sleeps ++ (List.range' attempt (maxR - attempt)).map (fun k => d * k)⟩ := by
  intro fuel
  induction fuel with
  | zero =>
    intro attempt sleeps htot _
    have h0 : maxR - attempt = 0 := by omega
    simp [downloadLoop, h0]
  | succ f ih =>
    intro attempt sleeps htot hall
    have hle : attempt ≤ maxR := by omega
    have hout : outcomes attempt = .netFail := hall attempt le_rfl hle
    by_cases hlt : attempt < maxR
    · have hrec := ih (attempt + 1) (sleeps ++ [d * attempt]) (by omega)
        (fun k hk1 hk2 => hall k (by omega) hk2)
      have hrange : maxR - attempt = (maxR - (attempt + 1)) + 1 := by omega
      have hstep : downloadLoop d maxR outcomes attempt (f + 1) tmp sleeps
          = downloadLoop d maxR outcomes (attempt + 1) f tmp (sleeps ++ [d * attempt]) := by
        simp [downloadLoop, hout, hlt]
      rw [hstep, hrec, hrange, List.range'_succ]
      simp
    · have heq : attempt = maxR := by omega
      have h0 : maxR - attempt = 0 := by omega
      simp [downloadLoop, hout, hlt, h0]

lemma downloadLoop_until_unexpected (d : ℚ) (maxR : Nat) (outcomes : Nat → AttemptOutcome)
    (tmp : Option (List Nat)) (j : Nat) (hj : j ≤ maxR)
    (houtj : outcomes j = .unexpectedFail) :
    ∀ (fuel attempt : Nat) (sleeps : List ℚ), attempt + fuel = maxR + 1 → attempt ≤ j →
      (∀ k, attempt ≤ k → k < j → outcomes k = .netFail) →
      downloadLoop d maxR outcomes attempt fuel tmp sleeps =
        ⟨false, none, sleeps ++ (List.range' attempt (j - attempt)).map (fun k => d * k)⟩ := by
  intro fuel
  induction fuel with
  | zero =>
    intro attempt sleeps htot haj _
    omega
  | succ f ih =>
    intro attempt sleeps htot haj hall
    by_cases hlt : attempt < j
    · have hout : outcomes attempt = .netFail := hall attempt le_rfl hlt
      have hltR : attempt < maxR := by omega
      have hrec := ih (attempt + 1) (sleeps ++ [d * attempt]) (by omega) (by omega)
        (fun k hk1 hk2 => hall k (by omega) hk2)
      have hrange : j - attempt = (j - (attempt + 1)) + 1 := by omega
      have hstep : downloadLoop d maxR outcomes attempt (f + 1) tmp sleeps
          = downloadLoop d maxR outcomes (attempt + 1) f tmp (sleeps ++ [d * attempt]) := by
        simp [downloadLoop, hout, hltR]
      rw [hstep, hrec, hrange, List.range'_succ]
      simp
    · have heq : attempt = j := by omega
      have h0 : j - attempt = 0 := by omega
      subst heq
      simp [downloadLoop, houtj, h0]

/-- C10: on every download run, a network-class failure (timeout, connection
error, transport error, or a status outside 2xx, 3xx and 206 raised by
raise_for_status) on attempt k below the maximum triggers a backoff of
k times the base delay followed by a retry, with the partial file preserved
across attempts; exhausting all max attempts returns failure while leaving
the partial file in place; and a non-network unexpected failure deletes the
partial file and returns failure immediately without retrying. -/
theorem download_retry_policy :
    (∀ (d : ℚ) (maxR : Nat) (outcomes : Nat → AttemptOutcome) (tmp : Option (List Nat)),
      (∀ k, 1 ≤ k → k ≤ maxR → outcomes k = .netFail) →
      download d maxR outcomes tmp = ⟨false, tmp, backoffs d (maxR - 1)⟩)
    ∧ (∀ (d : ℚ) (maxR : Nat) (outcomes : Nat → AttemptOutcome) (tmp : Option (List Nat))
        (j : Nat), 1 ≤ j → j ≤ maxR →
      (∀ k, 1 ≤ k → k < j → outcomes k = .netFail) → outcomes j = .unexpectedFail →
      download d maxR outcomes tmp = ⟨false, none, backoffs d (j - 1)⟩) := by
  constructor
  · intro d maxR outcomes tmp hall
    have h := downloadLoop_all_netFail d maxR outcomes tmp maxR 1 [] (by omega) hall
    have hr : maxR - 1 = maxR - 1 := rfl
    simpa [download, backoffs] using h
  · intro d maxR outcomes tmp j hj1 hjR hall houtj
    have h := downloadLoop_until_unexpected d maxR outcomes tmp j hjR houtj maxR 1 []
      (by omega) hj1 hall
    simpa [download, backoffs] using h

/-- Witness: base delay 2 and 3 attempts; all-network failures back off 2 then
4 seconds and keep the partial file; an unexpected failure on attempt 2
deletes the partial file after the single backoff of attempt 1. -/
theorem download_retry_policy_witness :
    download 2 3 (fun _ => .netFail) (some [7]) = ⟨false, some [7], backoffs 2 2⟩
    ∧ download 2 3 (fun k => if k = 1 then .netFail else .unexpectedFail) (some [7])
        = ⟨false, none, backoffs 2 1⟩ := by
  constructor
  · exact download_retry_policy.1 2 3 _ _ (fun k h1 h2 => rfl)
  · refine download_retry_policy.2 2 3 _ _ 2 (by omega) (by omega) ?_ (by decide)
    intro k h1 h2
    have hk : k = 1 := by omega
    subst hk
    rfl

/-! ### C5: the zero-range guard -/

lemma countFileLines_eq_filter (lines : List String) :
    countFileLines lines = (lines.filter (fun s => keepLine (trimChars s.data))).length := by
  suffices h : ∀ acc : Nat,
      lines.foldl (fun cnt s => if keepLine (trimChars s.data) then cnt + 1 else cnt) acc
        = acc + (lines.filter (fun s => keepLine (trimChars s.data))).length by
    simpa [countFileLines] using h 0
  induction lines with
  | nil => intro acc; simp
  | cons a t ih =>
    intro acc
    by_cases hk : keepLine (trimChars a.data)
    · simp [hk, List.foldl_cons, ih]
      omega
    · simp [hk, List.foldl_cons, ih]

/-- C5 (amended): the scan stops before any probe is issued exactly when the
fast line count is zero, that is, when the file has no nonempty non-comment
lines at all; in that case there are indeed no valid ranges.  The guard does
not inspect validity, so a file of only malformed lines does not stop the
scan: it proceeds with zero parsed ranges and ends as a normal empty scan. -/
theorem zero_range_guard (lines : List String) :
    (scanStopsBeforeProbes lines = true ↔
      (lines.filter (fun s => keepLine (trimChars s.data))).length = 0)
    ∧ (scanStopsBeforeProbes lines = true → parseSubnets lines = []) := by
  have hcount := countFileLines_eq_filter lines
  constructor
  · simp [scanStopsBeforeProbes, hcount]
  · intro hstop
    have hlen : (lines.filter (fun s => keepLine (trimChars s.data))).length = 0 := by
      simpa [scanStopsBeforeProbes, hcount] using hstop
    have hnil := List.length_eq_zero.mp hlen
    have hnone : ∀ s ∈ lines, ¬ keepLine (trimChars s.data) = true := by
      intro s hs
      exact (List.filter_eq_nil_iff.mp hnil) s hs
    apply List.filterMap_eq_nil_iff.mpr
    intro s hs
    simp [hnone s hs]

/-- Witness: a file of a comment line and a blank line stops the scan and has
no ranges. -/
theorem zero_range_guard_witness :
    scanStopsBeforeProbes ["# comment", "   "] = true
    ∧ parseSubnets ["# comment", "   "] = [] :=
  ⟨by decide, (zero_range_guard ["# comment", "   "]).2 (by decide)⟩

/-- C5 counterexample: a file with a single malformed line has zero valid
ranges after full load, yet the guard does not fire, so the scan is not
stopped and proceeds as an empty scan rather than reporting the distinct
zero-range error the claim requires. -/
theorem zero_range_guard_cex :
    parseSubnets ["zzz"] = [] ∧ scanStopsBeforeProbes ["zzz"] = false := by
  constructor <;> decide

/-! ### C8: persisted results -/

/-- C8 (amended): with validation enabled, the manual save writes a plain
text file whose lines are exactly the validation-passing resolver addresses,
one per line, sorted by ascending latency (the sorted list is a permutation
of the passing set and its latencies are non-decreasing); the end-of-scan
auto-save writes the same sorted addresses but preceded by comment header
lines, a separator and a blank line; and a save attempted when the set of
servers to save is empty writes no result file and reports that there is
nothing to save. -/
theorem save_results_spec (ts domain dnsType : String) (foundServers : List Nat)
    (serverTimes : List (Nat × ℚ)) (proxyResults : List (Nat × String)) :
    ((passedServers serverTimes proxyResults).insertionSort timeOrder).Perm
        (passedServers serverTimes proxyResults)
    ∧ List.Sorted timeOrder ((passedServers serverTimes proxyResults).insertionSort timeOrder)
    ∧ (passedServers serverTimes proxyResults = [] →
        actionSaveResults true foundServers serverTimes proxyResults = none
        ∧ autoSaveResults true ts domain dnsType foundServers serverTimes proxyResults
            = .nothingToSave "No DNS servers passed proxy test - nothing to save.")
    ∧ (∀ out, actionSaveResults true foundServers serverTimes proxyResults = some out →
        out.txtLines = ((passedServers serverTimes proxyResults).insertionSort timeOrder).map
          (fun p => ipToString p.1))
    ∧ (passedServers serverTimes proxyResults ≠ [] →
        autoSaveResults true ts domain dnsType foundServers serverTimes proxyResults
          = .savedFile (["# DNS Scanner Results - " ++ ts,
              "# Domain: " ++ domain ++ " | Type: " ++ dnsType,
              "# Slipstream Test: ENABLED (only passed servers)",
              "# Total Saved: " ++ natToString (passedServers serverTimes proxyResults).length,
              eqSeparatorLine, ""]
            ++ ((passedServers serverTimes proxyResults).insertionSort timeOrder).map
                (fun p => ipToString p.1))) := by
  refine ⟨List.perm_insertionSort timeOrder _, List.sorted_insertionSort timeOrder _,
    ?_, ?_, ?_⟩
  · intro hempty
    constructor
    · simp [actionSaveResults, hempty]
    · simp [autoSaveResults, hempty]
  · intro out hout
    by_cases hempty : passedServers serverTimes proxyResults = []
    · simp [actionSaveResults, hempty] at hout
    · have hne : ¬ (passedServers serverTimes proxyResults).isEmpty := by
        simpa [List.isEmpty_iff] using hempty
      simp [actionSaveResults, hne] at hout
      rw [← hout]
  · intro hempty
    have hne : ¬ (passedServers serverTimes proxyResults).isEmpty := by
      simpa [List.isEmpty_iff] using hempty
    simp [autoSaveResults, hne]

/-- Witness: with one found server that failed validation the passing set is
empty, so the manual save refuses and the auto-save reports nothing to
save. -/
theorem save_results_spec_witness :
    actionSaveResults true [16843009] [(16843009, (1 : ℚ))] [(16843009, "Failed")] = none
    ∧ autoSaveResults true "t" "d" "A" [16843009] [(16843009, (1 : ℚ))]
        [(16843009, "Failed")]
      = SaveOutcome.nothingToSave "No DNS servers passed proxy test - nothing to save." :=
  (save_results_spec "t" "d" "A" [16843009] [(16843009, (1 : ℚ))]
    [(16843009, "Failed")]).2.2.1 (by decide)

/-! ### C2 and C4: coverage and chunking of the address stream -/

/-- The multiset of addresses an accumulator has produced so far. -/
def flatAcc (acc : StreamAcc) : List Nat := acc.emitted.flatten ++ acc.chunk

lemma flatAcc_pushHost (acc : StreamAcc) (ip : Nat) :
    flatAcc (pushHost acc ip) = flatAcc acc ++ [ip] := by
  simp only [pushHost, flatAcc]
  split <;> simp

lemma flatAcc_foldl_pushHost (l : List Nat) :
    ∀ acc : StreamAcc, flatAcc (l.foldl pushHost acc) = flatAcc acc ++ l := by
  induction l with
  | nil => intro acc; simp
  | cons a t ih =>
    intro acc
    rw [List.foldl_cons, ih (pushHost acc a), flatAcc_pushHost]
    simp

lemma numAddresses_one_iff {n : IPv4Net} (hw : n.plen ≤ 32) :
    n.numAddresses = 1 ↔ n.plen = 32 := by
  unfold IPv4Net.numAddresses
  constructor
  · intro h
    by_contra hne
    have hpos : 0 < 32 - n.plen := by omega
    have h2 : 2 ≤ 2 ^ (32 - n.plen) := by
      calc 2 = 2 ^ 1 := rfl
        _ ≤ 2 ^ (32 - n.plen) := Nat.pow_le_pow_right (by omega) hpos
    omega
  · intro h
    simp [h]

lemma hostsList_single {n : IPv4Net} (hw : n.plen ≤ 32) (h1 : n.numAddresses = 1) :
    n.hostsList = [n.addr] := by
  have h32 : n.plen = 32 := (numAddresses_one_iff hw).mp h1
  simp [IPv4Net.hostsList, h32]

lemma subBlocks24_wf (n : IPv4Net) (hw : n.plen ≤ 32) :
    ∀ b ∈ n.subBlocks24, b.plen ≤ 32 := by
  intro b hb
  unfold IPv4Net.subBlocks24 at hb
  split at hb
  · simp at hb
    subst hb
    exact hw
  · simp at hb
    obtain ⟨i, _, hb⟩ := hb
    rw [← hb]
    show (24 : Nat) ≤ 32
    decide

lemma flatAcc_pushBlock (sC : List Nat → List Nat) (hC : ∀ l, (sC l).Perm l)
    (acc : StreamAcc) (blk : IPv4Net) (hw : blk.plen ≤ 32) :
    (flatAcc (pushBlock sC acc blk)).Perm (flatAcc acc ++ blk.hostsList) := by
  unfold pushBlock
  split
  · next hsingle =>
    rw [hostsList_single hw hsingle]
    unfold flatAcc
    simp
  · rw [flatAcc_foldl_pushHost]
    exact List.Perm.append_left _ (hC _)

lemma flatAcc_foldl_pushBlock (sC : List Nat → List Nat) (hC : ∀ l, (sC l).Perm l)
    (blocks : List IPv4Net) :
    ∀ acc : StreamAcc, (∀ b ∈ blocks, b.plen ≤ 32) →
      (flatAcc (blocks.foldl (pushBlock sC) acc)).Perm
        (flatAcc acc ++ blocks.flatMap IPv4Net.hostsList) := by
  induction blocks with
  | nil => intro acc _; simp
  | cons b t ih =>
    intro acc hw
    have h1 := ih (pushBlock sC acc b) (fun x hx => hw x (List.mem_cons_of_mem b hx))
    have h2 := flatAcc_pushBlock sC hC acc b (hw b (List.mem_cons_self b t))
    refine (h1.trans (h2.append_right _)).trans ?_
    simp [List.append_assoc]

lemma flatAcc_pushNet (sB : List IPv4Net → List IPv4Net) (sC : List Nat → List Nat)
    (hB : ∀ l, (sB l).Perm l) (hC : ∀ l, (sC l).Perm l)
    (acc : StreamAcc) (net : IPv4Net) (hw : net.plen ≤ 32) :
    (flatAcc (pushNet sB sC acc net)).Perm (flatAcc acc ++ usableHosts net) := by
  unfold pushNet
  have hwb : ∀ b ∈ sB net.subBlocks24, b.plen ≤ 32 := by
    intro b hb
    exact subBlocks24_wf net hw b ((hB net.subBlocks24).mem_iff.mp hb)
  refine (flatAcc_foldl_pushBlock sC hC (sB net.subBlocks24) acc hwb).trans ?_
  exact List.Perm.append_left _ (List.Perm.flatMap_right IPv4Net.hostsList (hB _))

lemma flatAcc_foldl_pushNet (sB : List IPv4Net → List IPv4Net) (sC : List Nat → List Nat)
    (hB : ∀ l, (sB l).Perm l) (hC : ∀ l, (sC l).Perm l) (nets : List IPv4Net) :
    ∀ acc : StreamAcc, (∀ n ∈ nets, n.plen ≤ 32) →
      (flatAcc (nets.foldl (pushNet sB sC) acc)).Perm (flatAcc acc ++ allUsableHosts nets) := by
  induction nets with
  | nil => intro acc _; simp [allUsableHosts]
  | cons n t ih =>
    intro acc hw
    have h1 := ih (pushNet sB sC acc n) (fun x hx => hw x (List.mem_cons_of_mem n hx))
    have h2 := flatAcc_pushNet sB sC hB hC acc n (hw n (List.mem_cons_self n t))
    refine (h1.trans (h2.append_right _)).trans ?_
    simp [allUsableHosts, List.append_assoc]

/-- The multiset identity behind C2 and C4: for any shuffles, the
concatenation of all emitted chunks is a permutation of the usable hosts of
the parsed ranges, one contribution per range occurrence. -/
lemma stream_flatten_perm (sN sB : List IPv4Net → List IPv4Net) (sC : List Nat → List Nat)
    (hN : ∀ l, (sN l).Perm l) (hB : ∀ l, (sB l).Perm l) (hC : ∀ l, (sC l).Perm l)
    (subnets : List IPv4Net) (hw : ∀ n ∈ subnets, n.plen ≤ 32) :
    ((streamIpsFromFile sN sB sC subnets).flatten).Perm (allUsableHosts subnets) := by
  unfold streamIpsFromFile
  have hwN : ∀ n ∈ sN subnets, n.plen ≤ 32 := fun n hn => hw n ((hN subnets).mem_iff.mp hn)
  have h1 := flatAcc_foldl_pushNet sB sC hB hC (sN subnets) ⟨[], []⟩ hwN
  have h2 : (allUsableHosts (sN subnets)).Perm (allUsableHosts subnets) :=
    List.Perm.flatMap_right usableHosts (hN subnets)
  have hsplit : ∀ acc : StreamAcc,
      (if acc.chunk.isEmpty then acc.emitted else acc.emitted ++ [acc.chunk]).flatten
        = flatAcc acc := by
    intro acc
    by_cases hchunk : acc.chunk.isEmpty
    · simp [hchunk, flatAcc, List.isEmpty_iff.mp hchunk]
    · simp [hchunk, flatAcc]
  rw [hsplit]
  refine h1.trans ?_
  simpa [flatAcc] using h2

lemma parsePrefixLen_le {l : List Char} {n : Nat} (h : parsePrefixLen l = some n) :
    n ≤ 32 := by
  unfold parsePrefixLen at h
  split_ifs at h
  all_goals simp_all

lemma parseIPv4Network_split_one {l a : List Char} (hsp : splitOnChar '/' l = [a]) :
    parseIPv4Network l = match parseIPv4Addr a with
      | some ad => some ⟨ad, 32⟩
      | none => none := by
  unfold parseIPv4Network
  rw [hsp]

lemma parseIPv4Network_split_two {l a p : List Char} (hsp : splitOnChar '/' l = [a, p]) :
    parseIPv4Network l = match parseIPv4Addr a, parsePrefixLen p with
      | some ad, some pl => some ⟨maskAddr ad pl, pl⟩
      | _, _ => none := by
  unfold parseIPv4Network
  rw [hsp]

lemma parseIPv4Network_plen {l : List Char} {n : IPv4Net}
    (h : parseIPv4Network l = some n) : n.plen ≤ 32 := by
  rcases hsp : splitOnChar '/' l with _ | ⟨a, rest⟩
  · have hnone : parseIPv4Network l = none := by
      unfold parseIPv4Network
      rw [hsp]
    rw [hnone] at h
    simp at h
  · rcases rest with _ | ⟨p, rest2⟩
    · rw [parseIPv4Network_split_one hsp] at h
      rcases hpa : parseIPv4Addr a with _ | ad <;> rw [hpa] at h <;> simp at h
      subst h
      exact le_refl 32
    · rcases rest2 with _ | _
      · rw [parseIPv4Network_split_two hsp] at h
        rcases hpa : parseIPv4Addr a with _ | ad <;> rw [hpa] at h
        · simp at h
        · rcases hpl : parsePrefixLen p with _ | pl <;> rw [hpl] at h <;> simp at h
          subst h
          exact parsePrefixLen_le hpl
      · have hnone : parseIPv4Network l = none := by
          unfold parseIPv4Network
          rw [hsp]
        rw [hnone] at h
        simp at h

lemma parseSubnets_wf (lines : List String) : ∀ n ∈ parseSubnets lines, n.plen ≤ 32 := by
  intro n hn
  unfold parseSubnets at hn
  obtain ⟨s, hs, hsome⟩ := List.mem_filterMap.mp hn
  by_cases hk : keepLine (trimChars s.data) <;> simp [hk] at hsome
  exact parseIPv4Network_plen hsome

/-- Bound invariant for the chunk-size analysis: the in-progress chunk stays
below the limit plus the single-address appends seen so far, and every
emitted chunk is within the limit plus those appends. -/
def chunksBounded (acc : StreamAcc) (s : Nat) : Prop :=
  acc.chunk.length ≤ (chunkLimit - 1) + s ∧ ∀ c ∈ acc.emitted, c.length ≤ chunkLimit + s

lemma chunksBounded_mono {acc : StreamAcc} {s s2 : Nat} (hs : s ≤ s2)
    (h : chunksBounded acc s) : chunksBounded acc s2 :=
  ⟨le_trans h.1 (by omega), fun c hc => le_trans (h.2 c hc) (by omega)⟩

lemma chunksBounded_pushHost {acc : StreamAcc} {s : Nat} (h : chunksBounded acc s)
    (ip : Nat) : chunksBounded (pushHost acc ip) s := by
  obtain ⟨h1, h2⟩ := h
  have hcl : chunkLimit = 500 := rfl
  simp only [pushHost]
  split
  · next hemit =>
    refine ⟨by simp, ?_⟩
    intro c hc
    simp at hc
    rcases hc with hc | hc
    · exact h2 c hc
    · rw [hc]
      simp
      omega
  · next hnoemit =>
    simp at hnoemit
    refine ⟨?_, h2⟩
    simp
    omega

lemma chunksBounded_foldl_pushHost {s : Nat} (l : List Nat) :
    ∀ acc : StreamAcc, chunksBounded acc s → chunksBounded (l.foldl pushHost acc) s := by
  induction l with
  | nil => intro acc h; exact h
  | cons a t ih => intro acc h; exact ih _ (chunksBounded_pushHost h a)

lemma chunksBounded_pushBlock (sC : List Nat → List Nat) {acc : StreamAcc} {s : Nat}
    (h : chunksBounded acc s) (b : IPv4Net) :
    chunksBounded (pushBlock sC acc b) (s + (if b.numAddresses == 1 then 1 else 0)) := by
  unfold pushBlock
  split
  · next hsingle =>
    rw [if_pos (by simpa using hsingle)]
    obtain ⟨h1, h2⟩ := h
    have hcl : chunkLimit = 500 := rfl
    refine ⟨?_, fun c hc => le_trans (h2 c hc) (by omega)⟩
    simp
    omega
  · next hnot =>
    rw [if_neg (by simpa using hnot), Nat.add_zero]
    exact chunksBounded_foldl_pushHost _ acc h

lemma chunksBounded_foldl_pushBlock (sC : List Nat → List Nat) (blocks : List IPv4Net) :
    ∀ (acc : StreamAcc) (s : Nat), chunksBounded acc s →
      chunksBounded (blocks.foldl (pushBlock sC) acc) (s + blocksSingleCount blocks) := by
  induction blocks with
  | nil => intro acc s h; simpa [blocksSingleCount] using h
  | cons b t ih =>
    intro acc s h
    have h1 := chunksBounded_pushBlock sC h b
    have h2 := ih (pushBlock sC acc b) _ h1
    refine chunksBounded_mono ?_ h2
    simp [blocksSingleCount, List.countP_cons]
    omega

lemma chunksBounded_pushNet (sB : List IPv4Net → List IPv4Net) (sC : List Nat → List Nat)
    (hB : ∀ l, (sB l).Perm l) {acc : StreamAcc} {s : Nat} (h : chunksBounded acc s)
    (net : IPv4Net) :
    chunksBounded (pushNet sB sC acc net) (s + blocksSingleCount net.subBlocks24) := by
  unfold pushNet
  have h1 := chunksBounded_foldl_pushBlock sC (sB net.subBlocks24) acc s h
  have hcnt : blocksSingleCount (sB net.subBlocks24) = blocksSingleCount net.subBlocks24 :=
    (hB _).countP_eq _
  rw [hcnt] at h1
  exact h1

lemma chunksBounded_foldl_pushNet (sB : List IPv4Net → List IPv4Net)
    (sC : List Nat → List Nat) (hB : ∀ l, (sB l).Perm l) (nets : List IPv4Net) :
    ∀ (acc : StreamAcc) (s : Nat), chunksBounded acc s →
      chunksBounded (nets.foldl (pushNet sB sC) acc) (s + singleBlockCount nets) := by
  induction nets with
  | nil => intro acc s h; simpa [singleBlockCount, blocksSingleCount] using h
  | cons n t ih =>
    intro acc s h
    have h1 := chunksBounded_pushNet sB sC hB h n
    have h2 := ih _ _ h1
    refine chunksBounded_mono ?_ h2
    simp [singleBlockCount, blocksSingleCount, List.countP_append]
    omega

/-- The chunk-size bound behind C2: every emitted chunk holds at most
chunkLimit plus one address per single-address block of the input. -/
lemma stream_chunk_bound (sN sB : List IPv4Net → List IPv4Net) (sC : List Nat → List Nat)
    (hN : ∀ l, (sN l).Perm l) (hB : ∀ l, (sB l).Perm l) (subnets : List IPv4Net) :
    ∀ c ∈ streamIpsFromFile sN sB sC subnets,
      c.length ≤ chunkLimit + singleBlockCount subnets := by
  intro c hc
  simp only [streamIpsFromFile] at hc
  have hinit : chunksBounded ⟨[], []⟩ 0 := ⟨by simp, by simp⟩
  have h1 := chunksBounded_foldl_pushNet sB sC hB (sN subnets) ⟨[], []⟩ 0 hinit
  have hcnt : singleBlockCount (sN subnets) = singleBlockCount subnets := by
    unfold singleBlockCount blocksSingleCount
    exact ((hN subnets).flatMap_right IPv4Net.subBlocks24).countP_eq _
  rw [Nat.zero_add, hcnt] at h1
  obtain ⟨hchunk, hemitted⟩ := h1
  split at hc
  · exact hemitted c hc
  · simp at hc
    rcases hc with hc | hc
    · exact hemitted c hc
    · rw [hc]
      have hcl : chunkLimit = 500 := rfl
      omega

/-- C2 (amended): for every input file of valid CIDR ranges and every draw of
the shuffles, the address stream emits the usable host addresses of every
valid range exactly once per range occurrence across all emitted chunks (no
duplicates, no omissions), where the usable hosts of a range are taken per
/24 sub-block: the network and broadcast address of each sub-block are
excluded, both addresses of a /31 and the single address of a /32 are
included.  Every emitted chunk contains at most 500 + s addresses, where s is
the number of single-address blocks in the file: those appends bypass the
chunk-size check, so the bound 500 alone does not hold. -/
theorem stream_coverage (sN sB : List IPv4Net → List IPv4Net) (sC : List Nat → List Nat)
    (hN : ∀ l, (sN l).Perm l) (hB : ∀ l, (sB l).Perm l) (hC : ∀ l, (sC l).Perm l)
    (lines : List String) :
    ((streamIpsFromFile sN sB sC (parseSubnets lines)).flatten).Perm
        (allUsableHosts (parseSubnets lines))
    ∧ ∀ c ∈ streamIpsFromFile sN sB sC (parseSubnets lines),
        c.length ≤ chunkLimit + singleBlockCount (parseSubnets lines) :=
  ⟨stream_flatten_perm sN sB sC hN hB hC (parseSubnets lines) (parseSubnets_wf lines),
   stream_chunk_bound sN sB sC hN hB (parseSubnets lines)⟩

/-- Witness: the identity shuffles on a one-range file. -/
theorem stream_coverage_witness :
    ((streamIpsFromFile id id id (parseSubnets ["198.51.100.0/30"])).flatten).Perm
      (allUsableHosts (parseSubnets ["198.51.100.0/30"])) :=
  (stream_coverage id id id (fun l => List.Perm.refl l) (fun l => List.Perm.refl l)
    (fun l => List.Perm.refl l) ["198.51.100.0/30"]).1

/-- C2 counterexample: a file of 501 single-address ranges produces a chunk
of 501 addresses, refuting the claimed bound of 500 per chunk; and on the
file of the single range 10.0.0.0/23 the stream emits 508 addresses rather
than the 510 the claim implies (all addresses except the range network and
broadcast), because the per sub-block enumeration also omits 10.0.0.255
and 10.0.1.0, as witnessed for 10.0.0.255 = 167772415. -/
theorem stream_coverage_cex :
    (streamIpsFromFile id id id (parseSubnets (List.replicate 501 "10.0.0.0/32"))).any
        (fun c => 500 < c.length) = true
    ∧ ((streamIpsFromFile id id id (parseSubnets ["10.0.0.0/23"])).flatten).length = 508
    ∧ ¬ 167772415 ∈ (streamIpsFromFile id id id (parseSubnets ["10.0.0.0/23"])).flatten := by
  have h := stream_flatten_perm id id id (fun l => List.Perm.refl l) (fun l => List.Perm.refl l)
    (fun l => List.Perm.refl l) (parseSubnets ["10.0.0.0/23"])
    (parseSubnets_wf ["10.0.0.0/23"])
  refine ⟨by decide, ?_, ?_⟩
  · rw [h.length_eq]
    decide
  · rw [h.mem_iff]
    decide

/-- C4 (amended): the 3-line file of one /32 range, one /30 range and one
malformed line yields exactly 3 addresses scanned in total, for every draw of
the shuffles: the /32 contributes its single address, the /30 contributes its
2 usable hosts (its network and broadcast addresses are excluded), and the
malformed line contributes 0. -/
theorem three_line_file_count (sN sB : List IPv4Net → List IPv4Net)
    (sC : List Nat → List Nat) (hN : ∀ l, (sN l).Perm l) (hB : ∀ l, (sB l).Perm l)
    (hC : ∀ l, (sC l).Perm l) :
    ((streamIpsFromFile sN sB sC
        (parseSubnets ["203.0.113.7/32", "198.51.100.0/30", "not a cidr"])).flatten).length
      = 3 := by
  have h := stream_flatten_perm sN sB sC hN hB hC
    (parseSubnets ["203.0.113.7/32", "198.51.100.0/30", "not a cidr"])
    (parseSubnets_wf ["203.0.113.7/32", "198.51.100.0/30", "not a cidr"])
  rw [h.length_eq]
  decide

/-- Witness: the identity shuffles. -/
theorem three_line_file_count_witness :
    ((streamIpsFromFile id id id
        (parseSubnets ["203.0.113.7/32", "198.51.100.0/30", "not a cidr"])).flatten).length
      = 3 :=
  three_line_file_count id id id (fun l => List.Perm.refl l) (fun l => List.Perm.refl l)
    (fun l => List.Perm.refl l)

/-- C4 counterexample: the total is not the claimed 5, because the /30
contributes its 2 usable hosts, not all 4 of its addresses. -/
theorem three_line_file_count_cex :
    ((streamIpsFromFile id id id
        (parseSubnets ["203.0.113.7/32", "198.51.100.0/30", "not a cidr"])).flatten).length
      ≠ 5 := by
  decide

/-! ### C7: forward-only proxy status -/

/-- Per-address invariant of the scan: at most one pending occurrence of the
address across the stream backlog, the created tasks and the running tasks,
and the recorded status agrees with where the occurrence currently sits. -/
def ipInv (st : ScanState) (ip : Nat) : Prop :=
  st.remaining.count ip + st.created.count ip + st.running.count ip ≤ 1
  ∧ (ip ∈ st.remaining → statusOf st ip = .notRequested)
  ∧ (ip ∈ st.created → statusOf st ip = .pending)
  ∧ (ip ∈ st.running → statusOf st ip = .testing)

lemma statusOf_cons (rem cre run : List Nat) (j : Nat) (s : ProxyStatus)
    (statuses : List (Nat × ProxyStatus)) (ip : Nat) :
    statusOf ⟨rem, cre, run, (j, s) :: statuses⟩ ip
      = if ip = j then s else statusOf ⟨rem, cre, run, statuses⟩ ip := by
  by_cases hij : ip = j
  · subst hij
    simp [statusOf, List.lookup]
  · have hbeq : (ip == j) = false := by simpa using hij
    simp [statusOf, List.lookup, hij, hbeq]

lemma statusOf_mk (rem cre run rem2 cre2 run2 : List Nat)
    (statuses : List (Nat × ProxyStatus)) (ip : Nat) :
    statusOf ⟨rem, cre, run, statuses⟩ ip = statusOf ⟨rem2, cre2, run2, statuses⟩ ip := rfl

lemma ipInv_step {st st' : ScanState} {e : ScanEv} {ip : Nat}
    (hinv : ipInv st ip) (hstep : applyEv st e = some st') :
    ipInv st' ip ∧ (statusOf st ip).rank ≤ (statusOf st' ip).rank
    ∧ st'.remaining.count ip + st'.created.count ip
        + (if e = ScanEv.beginTest ip then 1 else 0)
      ≤ st.remaining.count ip + st.created.count ip := by
  obtain ⟨hcnt, hrem, hcre, hrun⟩ := hinv
  cases e with
  | found j =>
    simp only [applyEv] at hstep
    split at hstep
    case isFalse => exact absurd hstep (by simp)
    case isTrue hmem =>
      rw [Option.some.injEq] at hstep
      subst hstep
      by_cases hij : ip = j
      · subst hij
        have hpos : 0 < st.remaining.count ip := List.count_pos_iff.mpr hmem
        have herase : (st.remaining.erase ip).count ip = st.remaining.count ip - 1 :=
          List.count_erase_self ip st.remaining
        have hnew : statusOf ⟨st.remaining.erase ip, ip :: st.created, st.running,
            (ip, .pending) :: st.statuses⟩ ip = .pending := by
          rw [statusOf_cons]
          simp
        have hold : statusOf st ip = .notRequested := hrem hmem
        refine ⟨⟨?_, ?_, ?_, ?_⟩, ?_, ?_⟩
        · simp only [herase, List.count_cons_self]
          omega
        · intro hmem2
          have := List.count_pos_iff.mpr hmem2
          simp only [herase] at this
          omega
        · intro _
          exact hnew
        · intro hmem2
          have := List.count_pos_iff.mpr hmem2
          simp only [] at this
          omega
        · rw [hold, hnew]
          decide
        · simp only [herase, List.count_cons_self]
          have : ¬ (ScanEv.found ip = ScanEv.beginTest ip) := by simp
          rw [if_neg this]
          omega
      · have herase : (st.remaining.erase j).count ip = st.remaining.count ip :=
          List.count_erase_of_ne hij st.remaining
        have hcons : (j :: st.created).count ip = st.created.count ip :=
          List.count_cons_of_ne hij st.created
        have hstat : statusOf ⟨st.remaining.erase j, j :: st.created, st.running,
            (j, .pending) :: st.statuses⟩ ip = statusOf st ip := by
          rw [statusOf_cons, if_neg hij]
          exact statusOf_mk _ _ _ _ _ _ _ _
        refine ⟨⟨?_, ?_, ?_, ?_⟩, ?_, ?_⟩
        · simp only [herase, hcons]
          omega
        · intro hmem2
          rw [hstat]
          exact hrem (List.mem_of_mem_erase hmem2)
        · intro hmem2
          rw [hstat]
          rcases List.mem_cons.mp hmem2 with h | h
          · exact absurd h hij
          · exact hcre h
        · intro hmem2
          rw [hstat]
          exact hrun hmem2
        · rw [hstat]
        · have : ¬ (ScanEv.found j = ScanEv.beginTest ip) := by simp
          rw [if_neg this]
          simp only [herase, hcons]
          omega
  | beginTest j =>
    simp only [applyEv] at hstep
    split at hstep
    case isFalse => exact absurd hstep (by simp)
    case isTrue hmem =>
      rw [Option.some.injEq] at hstep
      subst hstep
      by_cases hij : ip = j
      · subst hij
        have hpos : 0 < st.created.count ip := List.count_pos_iff.mpr hmem
        have herase : (st.created.erase ip).count ip = st.created.count ip - 1 :=
          List.count_erase_self ip st.created
        have hnew : statusOf ⟨st.remaining, st.created.erase ip, ip :: st.running,
            (ip, .testing) :: st.statuses⟩ ip = .testing := by
          rw [statusOf_cons]
          simp
        have hold : statusOf st ip = .pending := hcre hmem
        refine ⟨⟨?_, ?_, ?_, ?_⟩, ?_, ?_⟩
        · simp only [herase, List.count_cons_self]
          omega
        · intro hmem2
          have := List.count_pos_iff.mpr hmem2
          simp only [] at this
          omega
        · intro hmem2
          have := List.count_pos_iff.mpr hmem2
          simp only [herase] at this
          omega
        · intro _
          exact hnew
        · rw [hold, hnew]
          decide
        · have : (ScanEv.beginTest ip = ScanEv.beginTest ip) := rfl
          rw [if_pos this]
          simp only [herase]
          omega
      · have herase : (st.created.erase j).count ip = st.created.count ip :=
          List.count_erase_of_ne hij st.created
        have hcons : (j :: st.running).count ip = st.running.count ip :=
          List.count_cons_of_ne hij st.running
        have hstat : statusOf ⟨st.remaining, st.created.erase j, j :: st.running,
            (j, .testing) :: st.statuses⟩ ip = statusOf st ip := by
          rw [statusOf_cons, if_neg hij]
          exact statusOf_mk _ _ _ _ _ _ _ _
        refine ⟨⟨?_, ?_, ?_, ?_⟩, ?_, ?_⟩
        · simp only [herase, hcons]
          omega
        · intro hmem2
          rw [hstat]
          exact hrem hmem2
        · intro hmem2
          rw [hstat]
          exact hcre (List.mem_of_mem_erase hmem2)
        · intro hmem2
          rw [hstat]
          rcases List.mem_cons.mp hmem2 with h | h
          · exact absurd h hij
          · exact hrun h
        · rw [hstat]
        · have : ¬ (ScanEv.beginTest j = ScanEv.beginTest ip) := by
            simp
            exact fun h => hij h.symm
          rw [if_neg this]
          simp only [herase]
          omega
  | finish j ok =>
    simp only [applyEv] at hstep
    split at hstep
    case isFalse => exact absurd hstep (by simp)
    case isTrue hmem =>
      rw [Option.some.injEq] at hstep
      subst hstep
      by_cases hij : ip = j
      · subst hij
        have hpos : 0 < st.running.count ip := List.count_pos_iff.mpr hmem
        have herase : (st.running.erase ip).count ip = st.running.count ip - 1 :=
          List.count_erase_self ip st.running
        have hnew : statusOf ⟨st.remaining, st.created, st.running.erase ip,
            (ip, if ok then .success else .failed) :: st.statuses⟩ ip
              = (if ok then ProxyStatus.success else ProxyStatus.failed) := by
          rw [statusOf_cons]
          simp
        have hold : statusOf st ip = .testing := hrun hmem
        refine ⟨⟨?_, ?_, ?_, ?_⟩, ?_, ?_⟩
        · try dsimp only
          simp only [herase]
          omega
        · intro hmem2
          have := List.count_pos_iff.mpr hmem2
          simp only [] at this
          omega
        · intro hmem2
          have := List.count_pos_iff.mpr hmem2
          simp only [] at this
          omega
        · intro hmem2
          have := List.count_pos_iff.mpr hmem2
          simp only [herase] at this
          omega
        · rw [hold, hnew]
          cases ok <;> decide
        · have : ¬ (ScanEv.finish ip ok = ScanEv.beginTest ip) := by simp
          rw [if_neg this]
          try dsimp only
          omega
      · have herase : (st.running.erase j).count ip = st.running.count ip :=
          List.count_erase_of_ne hij st.running
        have hstat : statusOf ⟨st.remaining, st.created, st.running.erase j,
            (j, if ok then .success else .failed) :: st.statuses⟩ ip = statusOf st ip := by
          rw [statusOf_cons, if_neg hij]
          exact statusOf_mk _ _ _ _ _ _ _ _
        refine ⟨⟨?_, ?_, ?_, ?_⟩, ?_, ?_⟩
        · try dsimp only
          simp only [herase]
          omega
        · intro hmem2
          rw [hstat]
          exact hrem hmem2
        · intro hmem2
          rw [hstat]
          exact hcre hmem2
        · intro hmem2
          rw [hstat]
          exact hrun (List.mem_of_mem_erase hmem2)
        · rw [hstat]
        · have : ¬ (ScanEv.finish j ok = ScanEv.beginTest ip) := by simp
          rw [if_neg this]
          try dsimp only
          omega

lemma statesAlong_shape {st : ScanState} {evs : List ScanEv} {sts : List ScanState}
    (h : statesAlong st evs = some sts) : ∃ t, sts = st :: t := by
  cases evs with
  | nil =>
    simp [statesAlong] at h
    exact ⟨[], h.symm⟩
  | cons e rest =>
    simp only [statesAlong] at h
    rcases he : applyEv st e with _ | st2 <;> rw [he] at h
    · simp at h
    · simp at h
      obtain ⟨sts2, _, hsts⟩ := h
      exact ⟨sts2, hsts.symm⟩

lemma ipInv_trace {ip : Nat} :
    ∀ (evs : List ScanEv) (st : ScanState) (sts : List ScanState), ipInv st ip →
      statesAlong st evs = some sts →
      (sts.map (fun s => (statusOf s ip).rank)).Chain' (· ≤ ·)
      ∧ evs.count (ScanEv.beginTest ip) ≤ st.remaining.count ip + st.created.count ip := by
  intro evs
  induction evs with
  | nil =>
    intro st sts hinv h
    simp [statesAlong] at h
    subst h
    simp
  | cons e rest ih =>
    intro st sts hinv h
    simp only [statesAlong] at h
    rcases he : applyEv st e with _ | st2 <;> rw [he] at h
    · simp at h
    · simp at h
      obtain ⟨sts2, h2, hsts⟩ := h
      obtain ⟨hinv2, hrank, hcount⟩ := ipInv_step hinv he
      obtain ⟨hchain, hcnt2⟩ := ih st2 sts2 hinv2 h2
      obtain ⟨t2, ht2⟩ := statesAlong_shape h2
      subst hsts
      constructor
      · subst ht2
        simp only [List.map_cons]
        exact List.Chain'.cons hrank hchain
      · by_cases hbe : e = ScanEv.beginTest ip
        · rw [hbe]
          simp only [List.count_cons_self]
          rw [hbe] at hcount
          simp at hcount
          omega
        · have : (e :: rest).count (ScanEv.beginTest ip) = rest.count (ScanEv.beginTest ip) :=
            List.count_cons_of_ne (Ne.symm hbe) _
          rw [this]
          rw [if_neg hbe] at hcount
          omega

/-- C7 (amended): provided the address stream delivers each address at most
once (no range in the file contains an address twice across ranges), the
proxy status of every resolver only ever moves forward along
NotRequested, Pending, Testing, Success or Failed in every interleaved run,
and at most one validation task is ever admitted for it, so a resolver that
reached Success or Failed is never re-validated within the scan.  When the
input ranges overlap, a second live result for the same address resets its
status and queues a second validation, so the unconditional claim fails. -/
theorem proxy_status_forward (stream : List Nat) (evs : List ScanEv) (ip : Nat)
    (sts : List ScanState) (hdup : stream.count ip ≤ 1)
    (h : statesAlong (initScan stream) evs = some sts) :
    (sts.map (fun s => (statusOf s ip).rank)).Chain' (· ≤ ·)
    ∧ evs.count (ScanEv.beginTest ip) ≤ 1 := by
  have hinv : ipInv (initScan stream) ip := by
    refine ⟨by simpa [initScan] using hdup, ?_, ?_, ?_⟩
    · intro _
      rfl
    · intro hmem
      simp [initScan] at hmem
    · intro hmem
      simp [initScan] at hmem
  obtain ⟨hchain, hcount⟩ := ipInv_trace evs (initScan stream) sts hinv h
  refine ⟨hchain, ?_⟩
  simp only [initScan] at hcount
  simp at hcount
  omega

/-- Witness: the single-occurrence stream [5] with the full found, begin,
finish run. -/
theorem proxy_status_forward_witness :
    [ScanEv.found 5, ScanEv.beginTest 5, ScanEv.finish 5 true].count (ScanEv.beginTest 5)
      ≤ 1 := by
  have hs : statesAlong (initScan [5])
      [ScanEv.found 5, ScanEv.beginTest 5, ScanEv.finish 5 true]
      = some [⟨[5], [], [], []⟩, ⟨[], [5], [], [(5, .pending)]⟩,
          ⟨[], [], [5], [(5, .testing), (5, .pending)]⟩,
          ⟨[], [], [], [(5, .success), (5, .testing), (5, .pending)]⟩] := by
    decide
  exact (proxy_status_forward [5] _ 5 _ (by decide) hs).2

/-- C7 counterexample: a file listing the range 1.1.1.1/32 twice streams the
address twice; after its first validation finishes with Success, the second
live probe result resets the status to Pending, a backward transition, and
queues a second validation of an already-succeeded resolver. -/
theorem proxy_status_forward_cex :
    (runEvents (initScan ((streamIpsFromFile id id id
        (parseSubnets ["1.1.1.1/32", "1.1.1.1/32"])).flatten))
      [ScanEv.found 16843009, ScanEv.beginTest 16843009,
       ScanEv.finish 16843009 true]).map (fun st => statusOf st 16843009)
      = some ProxyStatus.success
    ∧ (runEvents (initScan ((streamIpsFromFile id id id
        (parseSubnets ["1.1.1.1/32", "1.1.1.1/32"])).flatten))
      [ScanEv.found 16843009, ScanEv.beginTest 16843009,
       ScanEv.finish 16843009 true, ScanEv.found 16843009]).map
        (fun st => statusOf st 16843009)
      = some ProxyStatus.pending
    ∧ ProxyStatus.pending.rank < ProxyStatus.success.rank := by
  refine ⟨by decide, by decide, by decide⟩

/-- C8 counterexample: the auto-saved plain text produced at the end of a
scan with validation enabled is not exactly one address per line: its first
lines are comment headers, so the persisted file differs from the bare
sorted address list the claim describes. -/
theorem save_results_cex :
    autoSaveResults true "t" "d" "A" [16843009] [(16843009, (1 : ℚ))]
        [(16843009, "Success")] ≠ .savedFile [ipToString 16843009]
    ∧ autoSaveResults true "t" "d" "A" [16843009] [(16843009, (1 : ℚ))]
        [(16843009, "Success")]
      = .savedFile ["# DNS Scanner Results - t", "# Domain: d | Type: A",
          "# Slipstream Test: ENABLED (only passed servers)", "# Total Saved: 1",
          eqSeparatorLine, "", "1.1.1.1"] := by
  constructor <;> decide

end DnsScanner
